import Mathlib

/-!
Shallow embedding of the data pipeline of `src/app.py` (an interactive
dashboard over pandas dataframes), together with proofs of the spec's
claims about it.

Modelling conventions:
* a dataframe cell is `Cell`: a string, a rational number (we model the
  float values of the source by exact rationals), a datetime (modelled
  as an integer timestamp) or a missing value `na` (pandas `NaN`/`NaT`);
* a dataframe is a `Table`: a header list (column name and pandas dtype)
  plus a list of rows, row-aligned with the headers;
* pandas elementwise equality `==` is `cellEq`: `NaN` compares unequal
  to everything, including itself;
* fallible steps (parse errors, missing datetime column, indexing an
  empty selection) are `Except`/`Option` values.
-/

namespace DataVis

/-- A pandas dtype, as reported by `df.select_dtypes` in `src/app.py`
lines 36-38 (`object`/`category` are categorical, `number` numeric,
`datetime64[ns]`/`datetime` datetime; anything else is in no class). -/
inductive DType
  | object
  | category
  | number
  | datetime
  | other
deriving DecidableEq, Repr

/-- One cell of a dataframe. -/
inductive Cell
  | vstr (s : String)
  | vnum (q : ℚ)
  | vdt (t : ℤ)
  | na
deriving DecidableEq, Repr

/-- A column header: name and declared dtype. -/
structure Header where
  name : String
  dtype : DType
deriving DecidableEq, Repr

/-- A row of a dataframe, aligned with the header list. -/
abbrev Row := List Cell

/-- An in-memory dataframe (`df` in `src/app.py`). -/
structure Table where
  headers : List Header
  rows : List Row
deriving DecidableEq, Repr

/-- The cell of a row at column position `i` (missing positions read as
`na`). -/
def cellAt (r : Row) (i : Nat) : Cell :=
  r.getD i Cell.na

/-- Position of column `c` in the table (pandas column lookup `df[c]`,
first matching name). -/
def colIdx (t : Table) (c : String) : Option Nat :=
  (t.headers.map Header.name).indexOf? c

/-- The cells of column `c`, top to bottom (`df[c]`). Empty if there is
no such column. -/
def columnCells (t : Table) (c : String) : List Cell :=
  match colIdx t c with
  | none => []
  | some i => t.rows.map (fun r => cellAt r i)

/-- The `categorical_cols` of `src/app.py` line 36:
`df.select_dtypes(include=["object", "category"]).columns.tolist()`. -/
def categoricalCols (t : Table) : List String :=
  (t.headers.filter
    (fun h => h.dtype == DType.object || h.dtype == DType.category)).map Header.name

/-- The `numeric_cols` of `src/app.py` line 37:
`df.select_dtypes(include=["number"]).columns.tolist()`. -/
def numericCols (t : Table) : List String :=
  (t.headers.filter (fun h => h.dtype == DType.number)).map Header.name

/-- The `datetime_cols` of `src/app.py` line 38:
`df.select_dtypes(include=["datetime64[ns]", "datetime"]).columns.tolist()`. -/
def datetimeCols (t : Table) : List String :=
  (t.headers.filter (fun h => h.dtype == DType.datetime)).map Header.name

/-- The ColumnClassification of the spec: the three column-name sets
computed on `src/app.py` lines 36-38. -/
structure ColumnClassification where
  categorical : List String
  numeric : List String
  datetime : List String
deriving DecidableEq, Repr

/-- Classify the columns of a table from its declared dtypes. -/
def classifyColumns (t : Table) : ColumnClassification :=
  { categorical := categoricalCols t
    numeric := numericCols t
    datetime := datetimeCols t }

/-- pandas elementwise equality (`df[filter_col] == selected_val`):
equal only when both sides are present values of the same kind with
equal payloads; `NaN` is equal to nothing, not even itself. -/
def cellEq : Cell → Cell → Bool
  | Cell.vstr a, Cell.vstr b => decide (a = b)
  | Cell.vnum a, Cell.vnum b => decide (a = b)
  | Cell.vdt a, Cell.vdt b => decide (a = b)
  | _, _ => false

/-- The row filter of `src/app.py` line 63:
`df = df[df[filter_col] == selected_val]`. Builds a new table from the
rows whose cell in column `c` equals `v`; headers (and hence dtypes)
are untouched, and the input table, being a pure value, is not
mutated. If `c` names no column the table is returned unchanged (in the
source this cannot happen: `filter_col` is drawn from
`categorical_cols`). -/
def filterTable (t : Table) (c : String) (v : Cell) : Table :=
  match colIdx t c with
  | none => t
  | some i => { headers := t.headers, rows := t.rows.filter (fun r => cellEq (cellAt r i) v) }

/-- First-occurrence deduplication, as pandas `Series.unique` keeps the
first occurrence of each value. `seen` accumulates values already kept. -/
def uniqueFirstAux (seen : List Cell) : List Cell → List Cell
  | [] => []
  | x :: xs => if x ∈ seen then uniqueFirstAux seen xs else x :: uniqueFirstAux (x :: seen) xs

/-- Pandas `Series.unique` over the non-null cells. -/
def uniqueFirst (l : List Cell) : List Cell :=
  uniqueFirstAux [] l

/-- The filter-value choices of `src/app.py` line 61:
`df[filter_col].dropna().unique().tolist()`. -/
def droppedNullUnique (t : Table) (c : String) : List Cell :=
  uniqueFirst ((columnCells t c).filter (fun x => !(x == Cell.na)))

/-- Outcome of the file-parsing call that `src/app.py` lines 20-23
delegates to pandas (`pd.read_csv` / `pd.read_excel`): either a table,
or the exception message of the parse failure. Parsing itself is an
external collaborator of the source. -/
inductive ParseResult
  | ok (t : Table)
  | fail (msg : String)

/-- State of the app script after the upload block of `src/app.py`
lines 18-30: on a parse failure `st.error(...)` shows the message and
`st.stop()` halts the script, so nothing downstream runs and no table
exists; on success the script proceeds and classifies the columns. -/
inductive AppRun
  | halted (errMsg : String)
  | running (t : Table) (cls : ColumnClassification)

/-- The Loader stage of `src/app.py` lines 18-38: the try/except around
the parse call, then the column classification of lines 36-38. -/
def loadStage : ParseResult → AppRun
  | ParseResult.fail e => AppRun.halted ("Error reading file: " ++ e)
  | ParseResult.ok t => AppRun.running t (classifyColumns t)

/-- A total order on cells, by kind then payload, used for the key sort
that pandas `groupby(..., sort=True)` (the default) performs and for
`sort_values`. `na` ranks last, matching pandas `na_position="last"`. -/
def Cell.rank : Cell → Nat
  | Cell.vstr _ => 0
  | Cell.vnum _ => 1
  | Cell.vdt _ => 2
  | Cell.na => 3

/-- Lexicographic order on character lists: the code-point order in
which both Python and pandas compare strings. -/
def charListLe : List Char → List Char → Bool
  | [], _ => true
  | _ :: _, [] => false
  | a :: as, b :: bs => if a = b then charListLe as bs else decide (a < b)

/-- Lexicographic order on strings. -/
def strLe (a b : String) : Bool :=
  charListLe a.data b.data

/-- Comparison `cellLe a b`: `a` sorts no later than `b`. -/
def cellLe (a b : Cell) : Bool :=
  match a, b with
  | Cell.vstr x, Cell.vstr y => strLe x y
  | Cell.vnum x, Cell.vnum y => decide (x ≤ y)
  | Cell.vdt x, Cell.vdt y => decide (x ≤ y)
  | a, b => decide (Cell.rank a ≤ Cell.rank b)

/-- The order `cellLe` as a relation, for the sorting lemmas. -/
def cellLeP (a b : Cell) : Prop :=
  cellLe a b = true

instance : DecidableRel cellLeP :=
  fun a b => inferInstanceAs (Decidable (cellLe a b = true))

/-- The numeric value that pandas `sum` adds for a cell: the number if
present, else nothing (`sum` skips `NaN`; with the default
`min_count=0` an all-`NaN` group sums to `0.0`, never to `NaN`). -/
def numOrZero : Cell → ℚ
  | Cell.vnum q => q
  | _ => 0

/-- The (group-key, value) cell pairs of the rows, for
`df.groupby(cat_col)[num_col]`. Empty if either column is missing
(cannot happen in the source, where both come from the detected column
lists). -/
def keyValPairs (t : Table) (c n : String) : List (Cell × Cell) :=
  match colIdx t c, colIdx t n with
  | some i, some j => t.rows.map (fun r => (cellAt r i, cellAt r j))
  | _, _ => []

/-- The grouping `df.groupby(cat_col)[num_col].sum()` of `src/app.py` lines 98 and
108: group keys are the distinct non-null values of the group column
(pandas drops null keys), sorted ascending (the groupby default
`sort=True`); each key maps to the sum of the value column over its
rows, skipping nulls. -/
def groupbySum (t : Table) (c n : String) : List (Cell × ℚ) :=
  let l := keyValPairs t c n
  let ks := List.insertionSort cellLeP
    (uniqueFirst ((l.map Prod.fst).filter (fun k => !(k == Cell.na))))
  ks.map (fun k => (k, ((l.filter (fun p => cellEq p.1 k)).map (fun p => numOrZero p.2)).sum))

/-- Descending-by-summed-value order on grouped entries, for
`sort_values(ascending=False)`. -/
def valGE (a b : Cell × ℚ) : Prop :=
  b.2 ≤ a.2

instance : DecidableRel valGE :=
  fun a b => inferInstanceAs (Decidable (b.2 ≤ a.2))

instance : IsTotal (Cell × ℚ) valGE :=
  ⟨fun a b => le_total b.2 a.2⟩

instance : IsTrans (Cell × ℚ) valGE :=
  ⟨fun _ _ _ hab hbc => le_trans hbc hab⟩

/-- The Bar-chart series of `src/app.py` line 108:
`df.groupby(cat_col)[num_col].sum().sort_values(ascending=False).dropna()`.
The trailing `dropna` is the identity here: pandas group sums are never
null (`sum` with `min_count=0`), so it drops nothing. -/
def barSeries (t : Table) (c n : String) : List (Cell × ℚ) :=
  List.insertionSort valGE (groupbySum t c n)

/-- Row order by the cell in column position `i`, for
`df.sort_values(by=dt_col)` (`src/app.py` line 127). -/
def rowLe (i : Nat) (r s : Row) : Prop :=
  cellLe (cellAt r i) (cellAt s i) = true

instance (i : Nat) : DecidableRel (rowLe i) :=
  fun r s => inferInstanceAs (Decidable (cellLe (cellAt r i) (cellAt s i) = true))

/-- The sort `df_sorted = df.sort_values(by=dt_col)` of `src/app.py` line 127:
rows reordered ascending by the named column (nulls last); headers
unchanged. If the column is missing (impossible in the source, where
`dt_col` comes from `datetime_cols`) the table is unchanged. -/
def sortRowsBy (t : Table) (d : String) : Table :=
  match colIdx t d with
  | none => t
  | some i => { headers := t.headers, rows := List.insertionSort (rowLe i) t.rows }

/-- The datetime-column selectbox of `src/app.py` lines 79-84: when the
table has datetime columns the user picks one of them (`pick` indexes
the choice); otherwise `dt_col = None` and a warning is shown. -/
def dtColChoice (t : Table) (pick : Nat) : Option String :=
  (datetimeCols t).get? pick

/-- Result of the Line-chart branch of `src/app.py` lines 125-136:
either the warning of line 136 with no chart rendered (`st.pyplot` is
never reached, and the script continues past the branch — it is not a
halt), or the plotted charts: one per selected numeric column, drawn
over the rows sorted by the datetime column. -/
inductive LineOutcome
  | warned (msg : String)
  | plotted (sorted : Table) (dtCol : String) (numSel : List String)
deriving DecidableEq

/-- The Line-chart branch itself (`if dt_col is not None: ... else:
st.warning(...)`). -/
def lineBranch (t : Table) (dtc : Option String) (numSel : List String) : LineOutcome :=
  match dtc with
  | none => LineOutcome.warned "No valid datetime column selected."
  | some d => LineOutcome.plotted (sortRowsBy t d) d numSel

/-- The numeric contents of a cell, if any. -/
def numOpt : Cell → Option ℚ
  | Cell.vnum q => some q
  | _ => none

/-- The non-null numeric values of column `n`, which is what every
pandas statistic (`describe`, `mean`, `median`, `corr`) is computed
over: `NaN` entries are skipped. -/
def nonNullNums (t : Table) (n : String) : List ℚ :=
  (columnCells t n).filterMap numOpt

/-- Arithmetic mean (`describe()["mean"]`); the junk value `0` for an
empty list models pandas `NaN`, and the strict comparison below is
false in both settings. -/
def qmean (l : List ℚ) : ℚ :=
  l.sum / l.length

/-- The 50th percentile of `describe()` (pandas linear interpolation,
which at the midpoint is the usual median: middle element for odd
length, average of the two middle elements for even length). -/
def median50 (l : List ℚ) : ℚ :=
  let s := List.insertionSort (· ≤ ·) l
  (s.getD ((l.length - 1) / 2) 0 + s.getD (l.length / 2) 0) / 2

/-- The value `q` rounded to hundredths: the integer number of hundredths that
the `:.2f` format of `src/app.py` lines 158-159 displays. -/
def fmt2 (q : ℚ) : ℤ :=
  round (q * 100)

/-- One emitted insight of the Auto Insight Generator, `src/app.py`
lines 153-160: the column name, the displayed two-decimal mean and
median (as hundredths), and the trend label. -/
structure Insight where
  col : String
  meanShown : ℤ
  medianShown : ℤ
  trend : String
deriving DecidableEq, Repr

/-- The insight computed for one numeric column:
`desc = df[num_col].describe()`;
`trend = "increasing" if desc["mean"] > desc["50%"] else "stable"`;
then the message renders `desc["mean"]` and `desc["50%"]` with `:.2f`. -/
def insightFor (t : Table) (n : String) : Insight :=
  let vals := nonNullNums t n
  { col := n
    meanShown := fmt2 (qmean vals)
    medianShown := fmt2 (median50 vals)
    trend := if median50 vals < qmean vals then "increasing" else "stable" }

/-- The Pie-chart insight of `src/app.py` lines 161-162:
`st.info(f"Pie chart shows proportional distribution of {num_cols_selected[0]} across {cat_col}.")`.
The subscript `num_cols_selected[0]` raises `IndexError` when the
multiselect is empty, modelled by fallible indexing (`List.get?`). -/
def pieInsight (numSel : List String) (catCol : String) : Option String :=
  (numSel.get? 0).map
    (fun c => "Pie chart shows proportional distribution of " ++ c ++ " across " ++ catCol ++ ".")

/-- The pairwise-complete observations of two columns: pandas `corr`
correlates two columns over the rows where both values are present. -/
def pairedObs (xs ys : List Cell) : List (ℚ × ℚ) :=
  (xs.zip ys).filterMap
    (fun p => match numOpt p.1, numOpt p.2 with
      | some a, some b => some (a, b)
      | _, _ => none)

/-- Sum of products of deviations from the means, over the paired
observations: the numerator of the sample covariance. -/
def sxy (l : List (ℚ × ℚ)) : ℚ :=
  (l.map (fun p => (p.1 - qmean (l.map Prod.fst)) * (p.2 - qmean (l.map Prod.snd)))).sum

/-- Sum of squared deviations of the first components. -/
def sxx (l : List (ℚ × ℚ)) : ℚ :=
  (l.map (fun p => (p.1 - qmean (l.map Prod.fst)) ^ 2)).sum

/-- Sum of squared deviations of the second components. -/
def syy (l : List (ℚ × ℚ)) : ℚ :=
  (l.map (fun p => (p.2 - qmean (l.map Prod.snd)) ^ 2)).sum

/-- Pearson correlation of two columns, as `df[...].corr()` of
`src/app.py` line 140 computes each matrix entry: sample covariance
divided by the product of sample standard deviations, `none` (pandas
`NaN`) when either column has zero variance over the paired
observations (constant, single, or empty data). -/
noncomputable def corrOpt (xs ys : List Cell) : Option ℝ :=
  let l := pairedObs xs ys
  if sxx l = 0 ∨ syy l = 0 then none
  else some (((sxy l / ((l.length : ℚ) - 1) : ℚ) : ℝ) /
    (Real.sqrt ((sxx l / ((l.length : ℚ) - 1) : ℚ) : ℝ) *
     Real.sqrt ((syy l / ((l.length : ℚ) - 1) : ℚ) : ℝ)))

/-- Entry `(a, b)` of the Correlation-Heatmap matrix
`corr = df[num_cols_selected].corr()` (`src/app.py` lines 86-87 set
`num_cols_selected = numeric_cols`, line 140 computes the matrix). -/
noncomputable def corrEntry (t : Table) (a b : String) : Option ℝ :=
  corrOpt (columnCells t a) (columnCells t b)

/-- The data outputs of one pass of the script: everything the user can
observe that is data (not styling): the detected classification, the
filtered table, the grouped sums, the correlation entries, and the
insight records. -/
structure DataOutputs where
  classification : ColumnClassification
  filtered : Table
  groupedSums : String → String → List (Cell × ℚ)
  barSeriesOf : String → String → List (Cell × ℚ)
  corrMatrix : String → String → Option ℝ
  insights : List Insight

/-- One pass of the script together with its styling state. -/
structure Rendered where
  style : String
  data : DataOutputs

/-- One top-to-bottom pass of `src/app.py` after a successful load:
`theme` is the sidebar radio choice of line 48, consumed only by
`sns.set(style=theme_choice.lower())` on line 49 (a plot-style
setting); `fcol` is the optional categorical filter of lines 57-64
(column and value); `numSel` the numeric-column multiselect. The
classification is the one computed on lines 36-38, before the filter. -/
noncomputable def runPipeline (t : Table) (theme : String)
    (fcol : Option (String × Cell)) (numSel : List String) : Rendered :=
  let df := match fcol with
    | none => t
    | some (c, v) => filterTable t c v
  { style := theme.toLower
    data :=
      { classification := classifyColumns t
        filtered := df
        groupedSums := fun c n => groupbySum df c n
        barSeriesOf := fun c n => barSeries df c n
        corrMatrix := fun a b => corrEntry df a b
        insights := numSel.map (fun n => insightFor df n) } }

/-- The 4-row example table of the spec's Bar-chart scenario:
`region` categorical `A,A,B,B`, `sales` numeric `10,20,30,40`. -/
def exTable : Table :=
  { headers := [⟨"region", DType.object⟩, ⟨"sales", DType.number⟩]
    rows := [[Cell.vstr "A", Cell.vnum 10],
             [Cell.vstr "A", Cell.vnum 20],
             [Cell.vstr "B", Cell.vnum 30],
             [Cell.vstr "B", Cell.vnum 40]] }

/-- A table whose numeric column `k` is constant: pandas `corr` yields
`NaN` for it, including on the diagonal. -/
def constTable : Table :=
  { headers := [⟨"k", DType.number⟩]
    rows := [[Cell.vnum 1], [Cell.vnum 1]] }

/-- A table with two non-constant numeric columns, for instantiating
the correlation theorem. -/
def corrWitnessTable : Table :=
  { headers := [⟨"x", DType.number⟩, ⟨"y", DType.number⟩]
    rows := [[Cell.vnum 1, Cell.vnum 2],
             [Cell.vnum 2, Cell.vnum 4],
             [Cell.vnum 3, Cell.vnum 6]] }

/-! ## Basic lemmas -/

/-- Filtering rows never touches the headers. -/
theorem filterTable_headers (t : Table) (c : String) (v : Cell) :
    (filterTable t c v).headers = t.headers := by
  unfold filterTable
  cases colIdx t c <;> rfl

/-- The classification reads only the headers. -/
theorem classifyColumns_eq_of_headers {s t : Table} (h : s.headers = t.headers) :
    classifyColumns s = classifyColumns t := by
  unfold classifyColumns categoricalCols numericCols datetimeCols
  rw [h]

/-- Column lookup reads only the headers. -/
theorem colIdx_eq_of_headers {s t : Table} (h : s.headers = t.headers) (c : String) :
    colIdx s c = colIdx t c := by
  unfold colIdx
  rw [h]

/-- A name among the header names resolves to a column position. -/
theorem colIdx_isSome_of_mem {t : Table} {c : String}
    (h : c ∈ t.headers.map Header.name) : ∃ i, colIdx t c = some i := by
  unfold colIdx
  cases hi : (t.headers.map Header.name).indexOf? c with
  | some i => exact ⟨i, rfl⟩
  | none =>
    rw [List.indexOf?_eq_none_iff] at hi
    exact absurd (by simp) (hi c h)

/-- A categorical column name is a header name. -/
theorem mem_headers_of_mem_categorical {t : Table} {c : String}
    (h : c ∈ categoricalCols t) : c ∈ t.headers.map Header.name := by
  unfold categoricalCols at h
  obtain ⟨hd, hmem, rfl⟩ := List.mem_map.mp h
  exact List.mem_map_of_mem _ (List.mem_of_mem_filter hmem)

/-! ## Claim theorems: classification, loader, theme, pie insight -/

/-- C3: the column classification visible downstream of a filter is the
classification of the filtered table: row filtering preserves headers
(hence declared dtypes), so the classification computed at load
(`src/app.py` lines 36-38) coincides with the one recomputation on the
filtered table would give. -/
theorem C3_classification_invariant (t : Table) (c : String) (v : Cell) :
    classifyColumns (filterTable t c v) = classifyColumns t :=
  classifyColumns_eq_of_headers (filterTable_headers t c v)

/-- C8: an upload whose bytes fail to parse halts the script with the
user-visible message carrying the parse failure (`st.error` then
`st.stop`, `src/app.py` lines 25-27): no table is produced and no
downstream stage runs. -/
theorem C8_loader_failure (e : String) :
    loadStage (ParseResult.fail e) = AppRun.halted ("Error reading file: " ++ e)
    ∧ ∀ t cls, loadStage (ParseResult.fail e) ≠ AppRun.running t cls := by
  refine ⟨rfl, fun t cls h => ?_⟩
  simp [loadStage] at h

/-- C9: the theme radio (`src/app.py` lines 48-49) only feeds
`sns.set(style=...)`; with the theme varied and every other input held
fixed, every data output of a pass (classification, filtered table,
grouped sums, bar series, correlation entries, insights) is
identical. -/
theorem C9_theme_noninterference (t : Table) (th₁ th₂ : String)
    (fcol : Option (String × Cell)) (numSel : List String) :
    (runPipeline t th₁ fcol numSel).data = (runPipeline t th₂ fcol numSel).data :=
  rfl

/-- C10: the Pie-chart insight reads `num_cols_selected[0]`
(`src/app.py` line 162), so it is defined only when at least one
numeric column is selected; on the empty selection the index-0 access
is out of range and no sentence is emitted, while a non-empty selection
yields the sentence naming its first column. -/
theorem C10_pie_insight_empty (numSel : List String) (catCol : String) :
    (numSel = [] → pieInsight numSel catCol = none)
    ∧ ∀ c cs, numSel = c :: cs →
        pieInsight numSel catCol
          = some ("Pie chart shows proportional distribution of " ++ c ++ " across "
              ++ catCol ++ ".") := by
  constructor
  · intro h
    subst h
    rfl
  · intro c cs h
    subst h
    rfl

/-- C1: filtering by a categorical column `c` and a value `v` present
among its dropped-null distinct values yields a table whose column `c`
is everywhere equal to `v`, whose row count is the number of rows of
the input whose column `c` equals `v`, and whose headers are untouched;
the input table, a pure value here as `df[df[c] == v]` builds a fresh
frame in the source, is not mutated. -/
theorem C1_filter_correct (t : Table) (c : String) (v : Cell)
    (hc : c ∈ (classifyColumns t).categorical)
    (hv : v ∈ droppedNullUnique t c) :
    (∀ x ∈ columnCells (filterTable t c v) c, cellEq x v = true)
    ∧ (filterTable t c v).rows.length = (columnCells t c).countP (fun x => cellEq x v)
    ∧ (filterTable t c v).headers = t.headers := by
  obtain ⟨i, hi⟩ := colIdx_isSome_of_mem (mem_headers_of_mem_categorical hc)
  have hrows : (filterTable t c v).rows = t.rows.filter (fun r => cellEq (cellAt r i) v) := by
    unfold filterTable
    rw [hi]
  refine ⟨?_, ?_, filterTable_headers t c v⟩
  · intro x hx
    unfold columnCells at hx
    rw [colIdx_eq_of_headers (filterTable_headers t c v), hi, hrows] at hx
    obtain ⟨r, hr, rfl⟩ := List.mem_map.mp hx
    exact (List.mem_filter.mp hr).2
  · rw [hrows, ← List.countP_eq_length_filter]
    unfold columnCells
    rw [hi, List.countP_map]
    rfl

/-- Witness for C1 at the spec's 4-row example, filtering
`region = "A"`. -/
theorem C1_filter_correct_witness :
    (∀ x ∈ columnCells (filterTable exTable "region" (Cell.vstr "A")) "region",
        cellEq x (Cell.vstr "A") = true)
    ∧ (filterTable exTable "region" (Cell.vstr "A")).rows.length
        = (columnCells exTable "region").countP (fun x => cellEq x (Cell.vstr "A"))
    ∧ (filterTable exTable "region" (Cell.vstr "A")).headers = exTable.headers :=
  C1_filter_correct exTable "region" (Cell.vstr "A") (by decide) (by decide)

/-- C5: for each numeric column the Auto Insight Generator
(`src/app.py` lines 153-160) works over the column's non-null values:
the trend is `"increasing"` exactly when the mean strictly exceeds the
median (the 50th percentile), `"stable"` otherwise, and the displayed
figures are the mean and median rounded to two decimal places. -/
theorem C5_insight_trend (t : Table) (n : String) :
    ((insightFor t n).trend = "increasing"
      ↔ median50 (nonNullNums t n) < qmean (nonNullNums t n))
    ∧ ((insightFor t n).trend = "stable"
      ↔ ¬ median50 (nonNullNums t n) < qmean (nonNullNums t n))
    ∧ (insightFor t n).meanShown = fmt2 (qmean (nonNullNums t n))
    ∧ (insightFor t n).medianShown = fmt2 (median50 (nonNullNums t n))
    ∧ (insightFor t n).col = n := by
  have hne : ("increasing" : String) ≠ "stable" := by decide
  unfold insightFor
  by_cases h : median50 (nonNullNums t n) < qmean (nonNullNums t n) <;>
    simp [h, hne, hne.symm]

/-! ## The Bar-chart series -/

/-- Evaluation of the grouped sums at the spec's 4-row scenario:
`{A: 30, B: 70}`. -/
theorem groupbySum_exTable :
    groupbySum exTable "region" "sales" = [(Cell.vstr "A", 30), (Cell.vstr "B", 70)] := by
  have h1 : keyValPairs exTable "region" "sales" =
      [(Cell.vstr "A", Cell.vnum 10), (Cell.vstr "A", Cell.vnum 20),
       (Cell.vstr "B", Cell.vnum 30), (Cell.vstr "B", Cell.vnum 40)] := by decide
  have h2 : List.insertionSort cellLeP
      (uniqueFirst ((([(Cell.vstr "A", Cell.vnum 10), (Cell.vstr "A", Cell.vnum 20),
        (Cell.vstr "B", Cell.vnum 30),
        (Cell.vstr "B", Cell.vnum 40)] : List (Cell × Cell)).map Prod.fst).filter
          (fun k => !(k == Cell.na)))) = [Cell.vstr "A", Cell.vstr "B"] := by decide
  have m1 : ((([(Cell.vstr "A", Cell.vnum 10), (Cell.vstr "A", Cell.vnum 20),
      (Cell.vstr "B", Cell.vnum 30), (Cell.vstr "B", Cell.vnum 40)] : List (Cell × Cell)).filter
        (fun p => cellEq p.1 (Cell.vstr "A"))).map (fun p => numOrZero p.2))
      = [(10 : ℚ), 20] := by decide
  have m2 : ((([(Cell.vstr "A", Cell.vnum 10), (Cell.vstr "A", Cell.vnum 20),
      (Cell.vstr "B", Cell.vnum 30), (Cell.vstr "B", Cell.vnum 40)] : List (Cell × Cell)).filter
        (fun p => cellEq p.1 (Cell.vstr "B"))).map (fun p => numOrZero p.2))
      = [(30 : ℚ), 40] := by decide
  simp only [groupbySum]
  rw [h1, h2]
  simp only [List.map_cons, List.map_nil, m1, m2]
  norm_num [List.sum]

/-- Evaluation of the Bar-chart series at the 4-row scenario: `B`
(sum 70) is rendered before `A` (sum 30). -/
theorem barSeries_exTable :
    barSeries exTable "region" "sales" = [(Cell.vstr "B", 70), (Cell.vstr "A", 30)] := by
  simp only [barSeries, groupbySum_exTable]
  norm_num [List.insertionSort, List.orderedInsert, valGE]

/-- C2: the Bar chart groups by the categorical column, sums the
numeric column per group (null sums cannot arise, so the source's
trailing `dropna` drops nothing and the series is a permutation of the
grouped sums), and renders the groups in descending order of summed
value; at the spec's 4-row scenario (`region = A,A,B,B`,
`sales = 10,20,30,40`) the sums are `A: 30`, `B: 70` and `B` is
rendered before `A`. -/
theorem C2_bar_chart (t : Table) (c n : String) :
    List.Sorted valGE (barSeries t c n)
    ∧ (barSeries t c n).Perm (groupbySum t c n)
    ∧ barSeries exTable "region" "sales" = [(Cell.vstr "B", 70), (Cell.vstr "A", 30)] :=
  ⟨List.sorted_insertionSort valGE (groupbySum t c n),
   List.perm_insertionSort valGE (groupbySum t c n),
   barSeries_exTable⟩

/-! ## Grouped sums partition the non-null-key rows (C7) -/

/-- Membership in the first-occurrence deduplication: the kept values
are those of the list not already seen. -/
theorem mem_uniqueFirstAux {x : Cell} (l : List Cell) :
    ∀ seen, x ∈ uniqueFirstAux seen l ↔ x ∈ l ∧ x ∉ seen := by
  induction l with
  | nil =>
    intro seen
    simp [uniqueFirstAux]
  | cons a l ih =>
    intro seen
    by_cases h : a ∈ seen
    · rw [uniqueFirstAux, if_pos h, ih seen]
      constructor
      · rintro ⟨hl, hs⟩
        exact ⟨List.mem_cons_of_mem _ hl, hs⟩
      · rintro ⟨hl, hs⟩
        rcases List.mem_cons.mp hl with rfl | hl
        · exact absurd h hs
        · exact ⟨hl, hs⟩
    · rw [uniqueFirstAux, if_neg h]
      constructor
      · intro hx
        rcases List.mem_cons.mp hx with rfl | hx
        · exact ⟨List.mem_cons_self _ _, h⟩
        · have h2 := (ih (a :: seen)).mp hx
          exact ⟨List.mem_cons_of_mem _ h2.1, fun hs => h2.2 (List.mem_cons_of_mem _ hs)⟩
      · rintro ⟨hl, hs⟩
        rcases List.mem_cons.mp hl with rfl | hl
        · exact List.mem_cons_self _ _
        · by_cases hxa : x = a
          · subst hxa
            exact List.mem_cons_self _ _
          · refine List.mem_cons_of_mem _ ((ih (a :: seen)).mpr ⟨hl, fun hsa => ?_⟩)
            rcases List.mem_cons.mp hsa with h1 | h2
            · exact hxa h1
            · exact hs h2

/-- The first-occurrence deduplication has no duplicates. -/
theorem nodup_uniqueFirstAux (l : List Cell) : ∀ seen, (uniqueFirstAux seen l).Nodup := by
  induction l with
  | nil =>
    intro seen
    simp [uniqueFirstAux]
  | cons a l ih =>
    intro seen
    by_cases h : a ∈ seen
    · rw [uniqueFirstAux, if_pos h]
      exact ih seen
    · rw [uniqueFirstAux, if_neg h]
      refine List.nodup_cons.mpr ⟨fun ha => ?_, ih (a :: seen)⟩
      exact ((mem_uniqueFirstAux l (a :: seen)).mp ha).2 (List.mem_cons_self _ _)

/-- Against a non-null cell, pandas `==` agrees with plain equality. -/
theorem cellEq_eq_decide (a k : Cell) (hk : k ≠ Cell.na) : cellEq a k = decide (a = k) := by
  cases a <;> cases k <;> simp_all [cellEq]

/-- Splitting a filtered sum along two mutually exclusive predicates. -/
theorem sum_map_filter_or {α : Type} (f : α → ℚ) (p q : α → Bool) :
    ∀ l : List α, (∀ x ∈ l, p x = true → q x = false) →
      ((l.filter (fun x => p x || q x)).map f).sum
        = ((l.filter p).map f).sum + ((l.filter q).map f).sum := by
  intro l
  induction l with
  | nil =>
    intro _
    simp
  | cons a l ih =>
    intro h
    have ha := h a (List.mem_cons_self a l)
    have hl := ih fun x hx => h x (List.mem_cons_of_mem a hx)
    by_cases hp : p a = true
    · have hq := ha hp
      simp [List.filter_cons, hp, hq, hl, add_assoc]
    · have hp' : p a = false := by simpa using hp
      by_cases hq : q a = true
      · simp [List.filter_cons, hp', hq, hl]
        ring
      · have hq' : q a = false := by simpa using hq
        simp [List.filter_cons, hp', hq', hl]

/-- Summing group-by-group over distinct non-null keys equals summing
over the rows whose key is among those keys. -/
theorem sum_groups (l : List (Cell × Cell)) (f : Cell × Cell → ℚ) :
    ∀ ks : List Cell, ks.Nodup → (∀ k ∈ ks, k ≠ Cell.na) →
      ((ks.map (fun k => ((l.filter (fun p => cellEq p.1 k)).map f).sum)).sum)
        = ((l.filter (fun p => decide (p.1 ∈ ks))).map f).sum := by
  intro ks
  induction ks with
  | nil =>
    intro _ _
    simp
  | cons k ks ih =>
    intro hnd hnn
    have hknn : k ≠ Cell.na := hnn k (List.mem_cons_self _ _)
    have hknotin : k ∉ ks := (List.nodup_cons.mp hnd).1
    have hrest := ih (List.nodup_cons.mp hnd).2 fun x hx => hnn x (List.mem_cons_of_mem _ hx)
    have hcongr : l.filter (fun p => decide (p.1 ∈ k :: ks))
        = l.filter (fun p => cellEq p.1 k || decide (p.1 ∈ ks)) := by
      refine List.filter_congr fun p _ => ?_
      rw [cellEq_eq_decide _ _ hknn]
      by_cases hpk : p.1 = k
      · simp [hpk]
      · simp [List.mem_cons, hpk]
    have hdisj : ∀ p ∈ l, cellEq p.1 k = true → decide (p.1 ∈ ks) = false := by
      intro p _ hpk
      rw [cellEq_eq_decide _ _ hknn] at hpk
      have hpe : p.1 = k := of_decide_eq_true hpk
      rw [hpe]
      simpa using hknotin
    simp only [List.map_cons, List.sum_cons, hrest, hcongr]
    rw [sum_map_filter_or f _ _ l hdisj]

/-- C7: for every categorical column `c` and numeric column `n`, the
total of the Pie/Bar grouped-and-summed series equals the sum of `n`
over exactly the rows whose `c` is non-null (pandas drops null group
keys, and within rows sums skip null values); the Bar series, a
permutation of the grouped series, has the same total. -/
theorem C7_group_total_sum (t : Table) (c n : String)
    (hc : c ∈ categoricalCols t) (hn : n ∈ numericCols t) :
    ((groupbySum t c n).map Prod.snd).sum
      = (((keyValPairs t c n).filter (fun p => !(p.1 == Cell.na))).map
          (fun p => numOrZero p.2)).sum
    ∧ ((barSeries t c n).map Prod.snd).sum = ((groupbySum t c n).map Prod.snd).sum := by
  constructor
  · have hperm := List.perm_insertionSort cellLeP
      (uniqueFirst (((keyValPairs t c n).map Prod.fst).filter (fun k => !(k == Cell.na))))
    have hnd : (List.insertionSort cellLeP
        (uniqueFirst (((keyValPairs t c n).map Prod.fst).filter
          (fun k => !(k == Cell.na))))).Nodup :=
      hperm.nodup_iff.mpr (nodup_uniqueFirstAux _ _)
    have hnn : ∀ k ∈ List.insertionSort cellLeP
        (uniqueFirst (((keyValPairs t c n).map Prod.fst).filter (fun k => !(k == Cell.na)))),
        k ≠ Cell.na := by
      intro k hk
      rw [List.mem_insertionSort] at hk
      have hkf := ((mem_uniqueFirstAux _ _).mp hk).1
      have := (List.mem_filter.mp hkf).2
      simpa using this
    have hmain := sum_groups (keyValPairs t c n) (fun p => numOrZero p.2) _ hnd hnn
    have hgb : ((groupbySum t c n).map Prod.snd).sum
        = ((List.insertionSort cellLeP
            (uniqueFirst (((keyValPairs t c n).map Prod.fst).filter
              (fun k => !(k == Cell.na))))).map
          (fun k => (((keyValPairs t c n).filter (fun p => cellEq p.1 k)).map
            (fun p => numOrZero p.2)).sum)).sum := by
      simp only [groupbySum, List.map_map]
      rfl
    rw [hgb, hmain]
    have hfc : (keyValPairs t c n).filter
        (fun p => decide (p.1 ∈ List.insertionSort cellLeP
          (uniqueFirst (((keyValPairs t c n).map Prod.fst).filter (fun k => !(k == Cell.na))))))
        = (keyValPairs t c n).filter (fun p => !(p.1 == Cell.na)) := by
      refine List.filter_congr fun p hp => ?_
      by_cases hna : p.1 = Cell.na
      · have hnotin : p.1 ∉ List.insertionSort cellLeP
            (uniqueFirst (((keyValPairs t c n).map Prod.fst).filter
              (fun k => !(k == Cell.na)))) := fun hin => (hnn _ hin) hna
        rw [hna] at hnotin ⊢
        simp [hnotin]
      · have hin : p.1 ∈ List.insertionSort cellLeP
            (uniqueFirst (((keyValPairs t c n).map Prod.fst).filter
              (fun k => !(k == Cell.na)))) := by
          rw [List.mem_insertionSort]
          refine (mem_uniqueFirstAux _ _).mpr ⟨List.mem_filter.mpr
            ⟨List.mem_map_of_mem _ hp, by simpa using hna⟩, List.not_mem_nil _⟩
        simp [hin, hna]
    rw [hfc]
  · exact ((List.perm_insertionSort valGE (groupbySum t c n)).map Prod.snd).sum_eq

/-- Witness for C7 at the spec's 4-row example: both sides equal 100. -/
theorem C7_group_total_sum_witness :
    ((groupbySum exTable "region" "sales").map Prod.snd).sum
      = (((keyValPairs exTable "region" "sales").filter (fun p => !(p.1 == Cell.na))).map
          (fun p => numOrZero p.2)).sum
    ∧ ((barSeries exTable "region" "sales").map Prod.snd).sum
      = ((groupbySum exTable "region" "sales").map Prod.snd).sum :=
  C7_group_total_sum exTable "region" "sales" (by decide) (by decide)

/-! ## The row order of the Line chart (C4) -/

/-- The lexicographic character order is total. -/
theorem charListLe_total : ∀ as bs : List Char, charListLe as bs = true ∨ charListLe bs as = true
  | [], _ => Or.inl rfl
  | _ :: _, [] => Or.inr rfl
  | a :: as, b :: bs => by
    by_cases h : a = b
    · subst h
      rcases charListLe_total as bs with h1 | h1
      · exact Or.inl (by simpa [charListLe] using h1)
      · exact Or.inr (by simpa [charListLe] using h1)
    · rcases lt_or_gt_of_ne h with hlt | hgt
      · exact Or.inl (by simp [charListLe, h, hlt])
      · exact Or.inr (by simp [charListLe, Ne.symm h, hgt])

/-- The lexicographic character order is transitive. -/
theorem charListLe_trans : ∀ as bs cs : List Char,
    charListLe as bs = true → charListLe bs cs = true → charListLe as cs = true
  | [], _, _ => by
    intro _ _
    rfl
  | a :: as, [], cs => by
    intro h _
    simp [charListLe] at h
  | a :: as, b :: bs, [] => by
    intro _ h
    simp [charListLe] at h
  | a :: as, b :: bs, c :: cs => by
    intro h1 h2
    by_cases hab : a = b <;> by_cases hbc : b = c
    · subst hab
      subst hbc
      simp only [charListLe, if_pos rfl] at h1 h2 ⊢
      exact charListLe_trans as bs cs h1 h2
    · subst hab
      rw [charListLe, if_neg hbc] at h2
      rw [charListLe, if_neg hbc]
      exact h2
    · subst hbc
      rw [charListLe, if_neg hab] at h1
      rw [charListLe, if_neg hab]
      exact h1
    · rw [charListLe, if_neg hab] at h1
      rw [charListLe, if_neg hbc] at h2
      have hac : a < c := lt_trans (of_decide_eq_true h1) (of_decide_eq_true h2)
      simp [charListLe, ne_of_lt hac, hac]

/-- The order `cellLe` is total. -/
theorem cellLe_total (a b : Cell) : cellLe a b = true ∨ cellLe b a = true := by
  cases a <;> cases b <;> simp [cellLe, Cell.rank, strLe, le_total] <;>
    first
      | exact charListLe_total _ _
      | omega

/-- The order `cellLe` is transitive. -/
theorem cellLe_trans (a b c : Cell) (h1 : cellLe a b = true) (h2 : cellLe b c = true) :
    cellLe a c = true := by
  cases a <;> cases b <;> cases c <;>
    simp_all only [cellLe, Cell.rank, strLe, decide_eq_true_eq] <;>
    first
      | rfl
      | exact charListLe_trans _ _ _ h1 h2
      | exact le_trans h1 h2
      | omega

instance (i : Nat) : IsTotal Row (rowLe i) :=
  ⟨fun r s => cellLe_total (cellAt r i) (cellAt s i)⟩

instance (i : Nat) : IsTrans Row (rowLe i) :=
  ⟨fun _ _ _ h1 h2 => cellLe_trans _ _ _ h1 h2⟩

/-- C4: with zero datetime columns the Line-chart branch only warns (no
chart is rendered and the script continues, so the rest of the
interface stays usable); with a chosen datetime column the branch plots
over the rows sorted ascending by that column (a permutation of the
rows, headers unchanged). -/
theorem C4_line_chart (t : Table) (pick : Nat) (numSel : List String) :
    (datetimeCols t = [] →
       lineBranch t (dtColChoice t pick) numSel
         = LineOutcome.warned "No valid datetime column selected.")
    ∧ (∀ d, dtColChoice t pick = some d → d ∈ datetimeCols t ∧
        lineBranch t (dtColChoice t pick) numSel
          = LineOutcome.plotted (sortRowsBy t d) d numSel)
    ∧ (∀ d, (sortRowsBy t d).rows.Perm t.rows ∧ (sortRowsBy t d).headers = t.headers
        ∧ ∀ i, colIdx t d = some i → List.Sorted (rowLe i) (sortRowsBy t d).rows) := by
  refine ⟨fun h => ?_, fun d hd => ⟨?_, ?_⟩, fun d => ⟨?_, ?_, fun i hi => ?_⟩⟩
  · unfold dtColChoice
    rw [h]
    rfl
  · exact List.get?_mem hd
  · rw [hd]
    rfl
  · unfold sortRowsBy
    cases h : colIdx t d with
    | none => exact List.Perm.refl _
    | some i => exact List.perm_insertionSort (rowLe i) t.rows
  · unfold sortRowsBy
    cases colIdx t d <;> rfl
  · unfold sortRowsBy
    rw [hi]
    exact List.sorted_insertionSort (rowLe i) t.rows

/-! ## The correlation matrix (C6) -/

/-- A sum over a mapped list as a `Finset.range` sum. -/
theorem list_map_sum_range {α : Type} (l : List α) (f : α → ℚ) (d : α) :
    (l.map f).sum = ∑ i in Finset.range l.length, f (l.getD i d) := by
  induction l with
  | nil => simp
  | cons a l ih =>
    rw [List.map_cons, List.sum_cons, List.length_cons, Finset.sum_range_succ']
    simp only [List.getD_cons_succ, List.getD_cons_zero]
    rw [ih]
    ring

/-- Cauchy-Schwarz for sums over a list of pairs. -/
theorem list_cauchy_schwarz (l : List (ℚ × ℚ)) (f g : ℚ × ℚ → ℚ) :
    ((l.map (fun p => f p * g p)).sum) ^ 2
      ≤ ((l.map (fun p => f p ^ 2)).sum) * ((l.map (fun p => g p ^ 2)).sum) := by
  rw [list_map_sum_range l (fun p => f p * g p) (0, 0),
    list_map_sum_range l (fun p => f p ^ 2) (0, 0),
    list_map_sum_range l (fun p => g p ^ 2) (0, 0)]
  exact Finset.sum_mul_sq_le_sq_mul_sq _ _ _

/-- Cauchy-Schwarz for the deviation sums. -/
theorem sq_sxy_le (l : List (ℚ × ℚ)) : sxy l ^ 2 ≤ sxx l * syy l := by
  unfold sxy sxx syy
  exact list_cauchy_schwarz l _ _

/-- A sum of squared deviations is nonnegative. -/
theorem sxx_nonneg (l : List (ℚ × ℚ)) : 0 ≤ sxx l := by
  refine List.sum_nonneg fun x hx => ?_
  obtain ⟨p, _, rfl⟩ := List.mem_map.mp hx
  positivity

/-- A sum of squared deviations is nonnegative. -/
theorem syy_nonneg (l : List (ℚ × ℚ)) : 0 ≤ syy l := by
  refine List.sum_nonneg fun x hx => ?_
  obtain ⟨p, _, rfl⟩ := List.mem_map.mp hx
  positivity

/-- With at most one observation the squared deviations vanish. -/
theorem sxx_eq_zero_of_short (l : List (ℚ × ℚ)) (h : l.length ≤ 1) : sxx l = 0 := by
  match l with
  | [] => simp [sxx]
  | [p] => simp [sxx, qmean]
  | p :: q :: l => simp at h

/-- Nonzero variance forces at least two observations. -/
theorem two_le_length_of_sxx_ne_zero {l : List (ℚ × ℚ)} (h : sxx l ≠ 0) : 2 ≤ l.length := by
  by_contra hlt
  exact h (sxx_eq_zero_of_short l (by omega))

/-- Pairwise completion is symmetric up to swapping each pair. -/
theorem pairedObs_swap (xs ys : List Cell) :
    pairedObs ys xs = (pairedObs xs ys).map Prod.swap := by
  induction xs generalizing ys with
  | nil => cases ys <;> simp [pairedObs]
  | cons x xs ih =>
    cases ys with
    | nil => simp [pairedObs]
    | cons y ys =>
      have ih' := ih ys
      simp only [pairedObs, List.zip_cons_cons, List.filterMap_cons] at ih' ⊢
      cases hx : numOpt x <;> cases hy : numOpt y <;> simp [hx, hy, ih']

/-- First components of the swapped pairs. -/
theorem map_fst_swap (l : List (ℚ × ℚ)) : (l.map Prod.swap).map Prod.fst = l.map Prod.snd := by
  simp [List.map_map, Function.comp_def]

/-- Second components of the swapped pairs. -/
theorem map_snd_swap (l : List (ℚ × ℚ)) : (l.map Prod.swap).map Prod.snd = l.map Prod.fst := by
  simp [List.map_map, Function.comp_def]

/-- The deviation cross-sum is symmetric. -/
theorem sxy_swap (l : List (ℚ × ℚ)) : sxy (l.map Prod.swap) = sxy l := by
  unfold sxy
  rw [map_fst_swap, map_snd_swap, List.map_map]
  refine congrArg List.sum (List.map_congr_left fun p _ => ?_)
  simp only [Function.comp_apply, Prod.fst_swap, Prod.snd_swap]
  ring

/-- Swapping exchanges the two squared-deviation sums. -/
theorem sxx_swap (l : List (ℚ × ℚ)) : sxx (l.map Prod.swap) = syy l := by
  unfold sxx syy
  rw [map_fst_swap, List.map_map]
  refine congrArg List.sum (List.map_congr_left fun p _ => ?_)
  simp

/-- Swapping exchanges the two squared-deviation sums. -/
theorem syy_swap (l : List (ℚ × ℚ)) : syy (l.map Prod.swap) = sxx l := by
  unfold sxx syy
  rw [map_snd_swap, List.map_map]
  refine congrArg List.sum (List.map_congr_left fun p _ => ?_)
  simp

/-- The Pearson correlation of two columns is symmetric. -/
theorem corrOpt_symm (xs ys : List Cell) : corrOpt xs ys = corrOpt ys xs := by
  simp only [corrOpt]
  rw [pairedObs_swap xs ys, sxx_swap, syy_swap, sxy_swap, List.length_map]
  by_cases h1 : sxx (pairedObs xs ys) = 0
  · simp [h1]
  · by_cases h2 : syy (pairedObs xs ys) = 0
    · simp [h2]
    · simp only [h1, h2, or_false, false_or, if_neg]
      rw [mul_comm (Real.sqrt _)]

/-- Pairing a column with itself duplicates its non-null values. -/
theorem pairedObs_self (xs : List Cell) :
    pairedObs xs xs = (xs.filterMap numOpt).map (fun a => (a, a)) := by
  induction xs with
  | nil => simp [pairedObs]
  | cons x xs ih =>
    simp only [pairedObs, List.zip_cons_cons, List.filterMap_cons] at ih ⊢
    cases hx : numOpt x <;> simp [hx, ih]

/-- First components of the duplicated pairs. -/
theorem map_fst_diag (v : List ℚ) : ((v.map fun a => (a, a)).map Prod.fst) = v := by
  simp [List.map_map, Function.comp_def]

/-- Second components of the duplicated pairs. -/
theorem map_snd_diag (v : List ℚ) : ((v.map fun a => (a, a)).map Prod.snd) = v := by
  simp [List.map_map, Function.comp_def]

/-- On duplicated pairs the cross-sum is the squared-deviation sum. -/
theorem sxy_diag (v : List ℚ) : sxy (v.map fun a => (a, a)) = sxx (v.map fun a => (a, a)) := by
  unfold sxy sxx
  rw [map_fst_diag, map_snd_diag, List.map_map, List.map_map]
  refine congrArg List.sum (List.map_congr_left fun p _ => ?_)
  simp only [Function.comp_apply]
  ring

/-- On duplicated pairs the two squared-deviation sums agree. -/
theorem syy_diag (v : List ℚ) : syy (v.map fun a => (a, a)) = sxx (v.map fun a => (a, a)) := by
  unfold syy sxx
  rw [map_fst_diag, map_snd_diag, List.map_map, List.map_map]
  refine congrArg List.sum (List.map_congr_left fun p _ => ?_)
  simp only [Function.comp_apply]

/-- The diagonal of the correlation matrix is 1 whenever the column has
nonzero variance over its non-null values. -/
theorem corrOpt_self {xs : List Cell} (h : sxx (pairedObs xs xs) ≠ 0) :
    corrOpt xs xs = some 1 := by
  have hyy : syy (pairedObs xs xs) = sxx (pairedObs xs xs) := by
    rw [pairedObs_self]
    exact syy_diag _
  have hxy : sxy (pairedObs xs xs) = sxx (pairedObs xs xs) := by
    rw [pairedObs_self]
    exact sxy_diag _
  have hX : 0 < sxx (pairedObs xs xs) := lt_of_le_of_ne (sxx_nonneg _) (Ne.symm h)
  have hn : 2 ≤ (pairedObs xs xs).length := two_le_length_of_sxx_ne_zero h
  have hc : 0 < ((pairedObs xs xs).length : ℚ) - 1 := by
    have h2 : (2 : ℚ) ≤ ((pairedObs xs xs).length : ℚ) := by exact_mod_cast hn
    linarith
  have hu : 0 < (((sxx (pairedObs xs xs) / (((pairedObs xs xs).length : ℚ) - 1)) : ℚ) : ℝ) := by
    have hq : 0 < sxx (pairedObs xs xs) / (((pairedObs xs xs).length : ℚ) - 1) := div_pos hX hc
    exact_mod_cast hq
  simp only [corrOpt, hyy, hxy, or_self, h, if_false]
  rw [Real.mul_self_sqrt hu.le, div_self (ne_of_gt hu)]

/-- Every defined correlation value lies in `[-1, 1]`. -/
theorem corrOpt_bounds {xs ys : List Cell} {r : ℝ} (h : corrOpt xs ys = some r) :
    -1 ≤ r ∧ r ≤ 1 := by
  by_cases hX : sxx (pairedObs xs ys) = 0
  · simp [corrOpt, hX] at h
  by_cases hY : syy (pairedObs xs ys) = 0
  · simp [corrOpt, hY] at h
  have hXp : 0 < sxx (pairedObs xs ys) := lt_of_le_of_ne (sxx_nonneg _) (Ne.symm hX)
  have hYp : 0 < syy (pairedObs xs ys) := lt_of_le_of_ne (syy_nonneg _) (Ne.symm hY)
  have hn : 2 ≤ (pairedObs xs ys).length := two_le_length_of_sxx_ne_zero hX
  simp only [corrOpt, hX, hY, or_self, if_false, Option.some.injEq] at h
  push_cast at h
  set Xr : ℝ := ((sxx (pairedObs xs ys) : ℚ) : ℝ) with hXr
  set Yr : ℝ := ((syy (pairedObs xs ys) : ℚ) : ℝ) with hYr
  set Sr : ℝ := ((sxy (pairedObs xs ys) : ℚ) : ℝ) with hSr
  set cr : ℝ := (((pairedObs xs ys).length : ℕ) : ℝ) - 1 with hcr
  have hXrp : 0 < Xr := by
    rw [hXr]
    exact_mod_cast hXp
  have hYrp : 0 < Yr := by
    rw [hYr]
    exact_mod_cast hYp
  have hcrp : 0 < cr := by
    rw [hcr]
    have h2 : (2 : ℝ) ≤ (((pairedObs xs ys).length : ℕ) : ℝ) := by exact_mod_cast hn
    linarith
  have hsplit : r = Sr / (Real.sqrt Xr * Real.sqrt Yr) := by
    rw [← h, Real.sqrt_div hXrp.le, Real.sqrt_div hYrp.le, div_mul_div_comm,
      Real.mul_self_sqrt hcrp.le]
    have hcne : cr ≠ 0 := ne_of_gt hcrp
    have hPne : Real.sqrt Xr * Real.sqrt Yr ≠ 0 :=
      ne_of_gt (mul_pos (Real.sqrt_pos.mpr hXrp) (Real.sqrt_pos.mpr hYrp))
    field_simp
  have hP2 : (Real.sqrt Xr * Real.sqrt Yr) ^ 2 = Xr * Yr := by
    rw [mul_pow, Real.sq_sqrt hXrp.le, Real.sq_sqrt hYrp.le]
  have hS2 : Sr ^ 2 ≤ Xr * Yr := by
    rw [hSr, hXr, hYr]
    exact_mod_cast sq_sxy_le (pairedObs xs ys)
  have hr2 : r ^ 2 ≤ 1 := by
    rw [hsplit, div_pow]
    have hP2p : 0 < (Real.sqrt Xr * Real.sqrt Yr) ^ 2 := by
      have hpos := mul_pos (Real.sqrt_pos.mpr hXrp) (Real.sqrt_pos.mpr hYrp)
      positivity
    exact (div_le_one hP2p).mpr (hP2 ▸ hS2)
  exact abs_le.mp ((sq_le_one_iff_abs_le_one r).mp hr2)

/-- C6 (amended): for numeric columns `a`, `b` of the (possibly
filtered) table, the heatmap's Pearson correlation matrix is symmetric
(`corr(a,b) = corr(b,a)`), its diagonal entry `corr(a,a)` is 1 whenever
the column has nonzero variance over its non-null values (a
zero-variance column yields a missing entry, pandas `NaN`, instead),
and every defined entry lies in `[-1, 1]`. -/
theorem C6_correlation (t : Table) (a b : String)
    (ha : a ∈ numericCols t) (hb : b ∈ numericCols t) :
    corrEntry t a b = corrEntry t b a
    ∧ (sxx (pairedObs (columnCells t a) (columnCells t a)) ≠ 0 → corrEntry t a a = some 1)
    ∧ (∀ r : ℝ, corrEntry t a b = some r → -1 ≤ r ∧ r ≤ 1) :=
  ⟨corrOpt_symm _ _, fun h => corrOpt_self h, fun _ h => corrOpt_bounds h⟩

/-- Counterexample to the claim's unconditional unit diagonal: on the
table whose numeric column `k` is the constant `1, 1`, pandas computes
`NaN` (no value) for `corr(k, k)`, not `1`. -/
theorem C6_unit_diagonal_counterexample :
    ("k" ∈ numericCols constTable) ∧ corrEntry constTable "k" "k" ≠ some 1 := by
  constructor
  · decide
  · have hp : pairedObs (columnCells constTable "k") (columnCells constTable "k")
        = [((1 : ℚ), (1 : ℚ)), (1, 1)] := by decide
    have hz : sxx (pairedObs (columnCells constTable "k") (columnCells constTable "k")) = 0 := by
      rw [hp]
      norm_num [sxx, qmean, List.sum]
    intro hcontra
    unfold corrEntry at hcontra
    simp [corrOpt, hz] at hcontra

/-- Witness for C6 on a table with two non-constant numeric columns. -/
theorem C6_correlation_witness :
    corrEntry corrWitnessTable "x" "y" = corrEntry corrWitnessTable "y" "x"
    ∧ (sxx (pairedObs (columnCells corrWitnessTable "x") (columnCells corrWitnessTable "x")) ≠ 0 →
        corrEntry corrWitnessTable "x" "x" = some 1)
    ∧ (∀ r : ℝ, corrEntry corrWitnessTable "x" "y" = some r → -1 ≤ r ∧ r ≤ 1) :=
  C6_correlation corrWitnessTable "x" "y" (by decide) (by decide)

end DataVis
